import Mathlib

/-!
Shallow embedding of `src/chgpasswd.c` (shadow-utils `chgpasswd`): the
batch group-password update engine.  Characters are `Char`, C strings are
`List Char`, the group and shadow-group databases are in-memory lists of
records, and the lock/open/commit lifecycle is recorded as an event trace.
The embedding is written with the `SHADOWGRP` build flag compiled in; the
runtime flag `is_shadow_grp` covers the shadow-database-absent case.
-/

set_option autoImplicit false

namespace Chgpasswd

/-- Crypt method identifiers accepted by `check_flags` (DES, MD5, NONE,
SHA256, SHA512); by the time the loop in `main` runs, `crypt_method` is
`NULL` or one of these. -/
inductive CryptMethod
  | DES
  | MD5
  | NONE
  | SHA256
  | SHA512
deriving DecidableEq, BEq

/-- The C type `struct group` (name, password, gid, members), as used by
the program. -/
structure group where
  gr_name : List Char
  gr_passwd : List Char
  gr_gid : Nat
  gr_mem : List (List Char)
deriving DecidableEq

/-- The C type `struct sgrp` (name, password, administrators, members). -/
structure sgrp where
  sg_name : List Char
  sg_passwd : List Char
  sg_adm : List (List Char)
  sg_mem : List (List Char)
deriving DecidableEq

/-- Run configuration fixed before the main loop: the `-e` flag (`eflg`),
the `-m` flag (`md5flg`), the `-c` method (`crypt_method`, `none` models a
NULL pointer), whether `sgr_file_present()` reported a shadow-group
database (`is_shadow_grp`), and the password encoder.  The `encrypt`
field models `fun p => pw_encrypt p (crypt_make_salt crypt_method arg)`
with the salt generated during the run: an opaque function on strings. -/
structure Config where
  eflg : Bool
  md5flg : Bool
  crypt_method : Option CryptMethod
  is_shadow_grp : Bool
  encrypt : List Char → List Char

/-- Environment outcomes for the four lock/open calls in `open_files`:
whether `gr_lock`, `gr_open`, `sgr_lock`, `sgr_open` succeed. -/
structure Env where
  grLockOk : Bool
  grOpenOk : Bool
  sgrLockOk : Bool
  sgrOpenOk : Bool

/-- The environment in which every lock and open call succeeds. -/
def Env.allOk : Env := ⟨true, true, true, true⟩

/-- Per-line diagnostics printed to stderr by the main loop, with the
1-based line number (and group name where the message includes it). -/
inductive Diag
  | lineTooLong (line : Nat)
  | missingNewPassword (line : Nat)
  | unknownGroup (line : Nat) (name : List Char)
  | sgrUpdateFailed (line : Nat) (name : List Char)
  | grUpdateFailed (line : Nat) (name : List Char)
deriving DecidableEq

/-- Successful lock/open/close/unlock events on the two databases, in the
order the program performs them. -/
inductive Event
  | grLock
  | grOpen
  | sgrLock
  | sgrOpen
  | grClose
  | sgrClose
  | grUnlock
  | sgrUnlock
deriving DecidableEq

/-- State carried across iterations of the main loop: the two in-memory
databases, the error counter, the line counter, the number of
`pw_encrypt` invocations so far, and the diagnostics emitted so far. -/
structure RunState where
  grdb : List group
  sgrdb : List sgrp
  errors : Nat
  lineNo : Nat
  encCalls : Nat
  diags : List Diag
deriving DecidableEq

/-- Modelled from the spec: the Database Handle operation `locate(name)`
for the primary group database (`gr_locate`, declared in `groupio.h`, body not in
`src/`): pure lookup of the (first) record with the given key. -/
def gr_locate : List group → List Char → Option group
  | [], _ => none
  | g :: rest, n => if g.gr_name = n then some g else gr_locate rest n

/-- Modelled from the spec: `locate(name)` for the shadow-group database
(`sgr_locate`, declared in `sgroupio.h`, body not in `src/`). -/
def sgr_locate : List sgrp → List Char → Option sgrp
  | [], _ => none
  | g :: rest, n => if g.sg_name = n then some g else sgr_locate rest n

/-- Modelled from the spec: the Database Handle operation
`stageUpdate(record)` for the primary database (`gr_update`, body not in `src/`): replaces the
in-memory entry whose key matches, and is rejected (`none`) if no prior
entry with that key exists. -/
def gr_update : List group → group → Option (List group)
  | [], _ => none
  | g :: rest, ng =>
      if g.gr_name = ng.gr_name then some (ng :: rest)
      else (gr_update rest ng).map (g :: ·)

/-- Modelled from the spec: `stageUpdate(record)` for the shadow-group
database (`sgr_update`, body not in `src/`). -/
def sgr_update : List sgrp → sgrp → Option (List sgrp)
  | [], _ => none
  | g :: rest, ng =>
      if g.sg_name = ng.sg_name then some (ng :: rest)
      else (sgr_update rest ng).map (g :: ·)

/-- The glibc value of `BUFSIZ`: the size of `char buf[BUFSIZ]` in
`main`. -/
def BUFSIZ : Nat := 8192

/-- One `fgets(buf, k+1, stdin)` call on the remaining input: consumes at
most `k` characters, stopping just after the first newline.  Returns the
characters stored in `buf` and the unread rest of the stream. -/
def takeLine : Nat → List Char → List Char × List Char
  | 0, s => ([], s)
  | _ + 1, [] => ([], [])
  | k + 1, c :: s =>
      if c = '\n' then ([c], s)
      else
        let p := takeLine k s
        (c :: p.1, p.2)

/-- Fuel-indexed iteration of `fgets` over the stream; each call on a
nonempty stream consumes at least one character, so fuel equal to the
stream length suffices. -/
def fgetsLoop : Nat → List Char → List (List Char)
  | 0, _ => []
  | _ + 1, [] => []
  | fuel + 1, c :: s =>
      let p := takeLine (BUFSIZ - 1) (c :: s)
      p.1 :: fgetsLoop fuel p.2

/-- The sequence of buffers successive `fgets(buf, BUFSIZ, stdin)` calls
return on the given input stream, until end-of-stream. -/
def fgetsAll (s : List Char) : List (List Char) := fgetsLoop s.length s

/-- Helper for `truncAtLastNl`: drop characters up to and including the
first newline, `none` when there is no newline. -/
def dropThroughNl : List Char → Option (List Char)
  | [] => none
  | c :: s => if c = '\n' then some s else dropThroughNl s

/-- Lines 403-405 of `chgpasswd.c`: the call `cp = strrchr (buf, newline)`
followed by writing NUL at `cp` — truncate the buffer at its last
newline; `none` models `strrchr` returning `NULL` (no newline seen
before end of buffer). -/
def truncAtLastNl (buf : List Char) : Option (List Char) :=
  (dropThroughNl buf.reverse).map List.reverse

/-- Lines 422-426 of `chgpasswd.c`: the call `cp = strchr (name, colon)`,
writing NUL at `cp`, then `cp++` — split at the first colon into (name,
new password); `none` models `strchr` returning `NULL` (no colon in the
line). -/
def splitAtFirstColon : List Char → Option (List Char × List Char)
  | [] => none
  | c :: s =>
      if c = ':' then some ([], s)
      else (splitAtFirstColon s).map (fun p => (c :: p.1, p.2))

/-- Lines 435-450 of `chgpasswd.c`: the credential actually stored for a
parsed password field, paired with the number of `pw_encrypt` calls this
line makes (1 when the encoder runs, 0 when it is bypassed).  The encoder
runs iff `!eflg && (NULL == crypt_method || 0 != strcmp (crypt_method,
"NONE"))`. -/
def encryptField (cfg : Config) (newpwd : List Char) : List Char × Nat :=
  if ¬cfg.eflg = true ∧ (cfg.crypt_method = none ∨ ¬cfg.crypt_method = some CryptMethod.NONE) then
    (cfg.encrypt newpwd, 1)
  else
    (newpwd, 0)

/-- Lines 435-511 of `chgpasswd.c`: the rest of one loop iteration after a
line has been parsed into `name` and `newpwd` — encrypt unless bypassed,
locate the group (unknown group: count an error and continue), consult the
shadow database when active, and stage the new credential into the shadow
record when one exists, otherwise into the primary record. -/
def processParsed (cfg : Config) (st0 : RunState) (name newpwd : List Char) : RunState :=
  let cp := (encryptField cfg newpwd).1
  let st := { st0 with encCalls := st0.encCalls + (encryptField cfg newpwd).2 }
  match gr_locate st.grdb name with
  | none =>
      { st with errors := st.errors + 1,
                diags := st.diags ++ [Diag.unknownGroup st.lineNo name] }
  | some gr =>
      match (if cfg.is_shadow_grp then sgr_locate st.sgrdb name else none) with
      | some sg =>
          let newsg := { sg with sg_passwd := cp }
          match sgr_update st.sgrdb newsg with
          | none =>
              { st with errors := st.errors + 1,
                        diags := st.diags ++ [Diag.sgrUpdateFailed st.lineNo newsg.sg_name] }
          | some db => { st with sgrdb := db }
      | none =>
          let newgr := { gr with gr_passwd := cp }
          match gr_update st.grdb newgr with
          | none =>
              { st with errors := st.errors + 1,
                        diags := st.diags ++ [Diag.grUpdateFailed st.lineNo newgr.gr_name] }
          | some db => { st with grdb := db }

/-- Lines 401-511 of `chgpasswd.c`: one full iteration of the main loop on
the buffer one `fgets` call returned — count the line, reject it when no
newline was stored (line too long) or no colon is present (missing new
password), otherwise process the parsed (name, password) pair. -/
def processLine (cfg : Config) (st0 : RunState) (buf : List Char) : RunState :=
  let st := { st0 with lineNo := st0.lineNo + 1 }
  match truncAtLastNl buf with
  | none =>
      { st with errors := st.errors + 1,
                diags := st.diags ++ [Diag.lineTooLong st.lineNo] }
  | some content =>
      match splitAtFirstColon content with
      | none =>
          { st with errors := st.errors + 1,
                    diags := st.diags ++ [Diag.missingNewPassword st.lineNo] }
      | some p => processParsed cfg st p.1 p.2

/-- The main loop (`while (fgets ...)`) over the list of buffers. -/
def runLines (cfg : Config) : RunState → List (List Char) → RunState
  | st, [] => st
  | st, b :: bs => runLines cfg (processLine cfg st b) bs

/-- The function `fail_exit` (lines 87-108 of `chgpasswd.c`): unlock the
primary group
database when it is locked, then the shadow-group database when it is
locked, in that order. -/
def fail_exit_trace (gr_locked sgr_locked : Bool) : List Event :=
  (if gr_locked then [Event.grUnlock] else []) ++
  (if sgr_locked then [Event.sgrUnlock] else [])

/-- The initial loop state of `main`: the two databases as loaded from
disk, `errors = 0`, `line = 0`, no encoder calls, no diagnostics. -/
def initState (grdb0 : List group) (sgrdb0 : List sgrp) : RunState :=
  { grdb := grdb0, sgrdb := sgrdb0, errors := 0, lineNo := 0, encCalls := 0,
    diags := [] }

/-- Result of one whole run: exit status, the database lock/open/commit
event trace, the on-disk contents of both databases after the run, and
the final loop state (error counter, diagnostics, encoder-call count,
line count). -/
structure RunResult where
  exitCode : Nat
  trace : List Event
  grdbFinal : List group
  sgrdbFinal : List sgrp
  errors : Nat
  diags : List Diag
  encCalls : Nat
  lines : Nat
deriving DecidableEq

/-- The function `main` from `open_files()` onwards (lines 394-536 of
`chgpasswd.c`), with the on-disk contents `grdb0`/`sgrdb0` of the two
databases and the stdin stream `input` made explicit: lock and open the primary database, then
(when the shadow database is present) lock and open it, run the main
loop, and either abort via `fail_exit (1)` (any error, on-disk files
unchanged) or commit via `close_files` (shadow first, then primary).
Lock/open failures follow the early `fail_exit (1)` paths of
`open_files`. -/
def chgpasswd_run (cfg : Config) (env : Env) (grdb0 : List group)
    (sgrdb0 : List sgrp) (input : List Char) : RunResult :=
  if ¬env.grLockOk = true then
    { exitCode := 1, trace := fail_exit_trace false false,
      grdbFinal := grdb0, sgrdbFinal := sgrdb0,
      errors := 0, diags := [], encCalls := 0, lines := 0 }
  else if ¬env.grOpenOk = true then
    { exitCode := 1, trace := [Event.grLock] ++ fail_exit_trace true false,
      grdbFinal := grdb0, sgrdbFinal := sgrdb0,
      errors := 0, diags := [], encCalls := 0, lines := 0 }
  else if cfg.is_shadow_grp = true ∧ ¬env.sgrLockOk = true then
    { exitCode := 1, trace := [Event.grLock, Event.grOpen] ++ fail_exit_trace true false,
      grdbFinal := grdb0, sgrdbFinal := sgrdb0,
      errors := 0, diags := [], encCalls := 0, lines := 0 }
  else if cfg.is_shadow_grp = true ∧ ¬env.sgrOpenOk = true then
    { exitCode := 1,
      trace := [Event.grLock, Event.grOpen, Event.sgrLock] ++ fail_exit_trace true true,
      grdbFinal := grdb0, sgrdbFinal := sgrdb0,
      errors := 0, diags := [], encCalls := 0, lines := 0 }
  else
    let openTrace := [Event.grLock, Event.grOpen] ++
      (if cfg.is_shadow_grp then [Event.sgrLock, Event.sgrOpen] else [])
    let st := runLines cfg (initState grdb0 sgrdb0) (fgetsAll input)
    if st.errors ≠ 0 then
      { exitCode := 1,
        trace := openTrace ++ fail_exit_trace true cfg.is_shadow_grp,
        grdbFinal := grdb0, sgrdbFinal := sgrdb0,
        errors := st.errors, diags := st.diags, encCalls := st.encCalls,
        lines := st.lineNo }
    else
      { exitCode := 0,
        trace := openTrace ++
          (if cfg.is_shadow_grp then [Event.sgrClose, Event.sgrUnlock] else []) ++
          [Event.grClose, Event.grUnlock],
        grdbFinal := st.grdb,
        sgrdbFinal := if cfg.is_shadow_grp then st.sgrdb else sgrdb0,
        errors := 0, diags := st.diags, encCalls := st.encCalls,
        lines := st.lineNo }

/-- Which locks this process still holds after a trace of events
(primary, shadow): acquired by the lock events, released by the unlock
events. -/
def locksHeldAfter (t : List Event) : Bool × Bool :=
  t.foldl (fun h e =>
    match e with
    | Event.grLock => (true, h.2)
    | Event.grUnlock => (false, h.2)
    | Event.sgrLock => (h.1, true)
    | Event.sgrUnlock => (h.1, false)
    | _ => h) (false, false)

/-- One well-formed input line for the pair `q = (name, password)`:
the byte sequence `name ':' password '\n'`. -/
def mkLine (q : List Char × List Char) : List Char :=
  q.1 ++ ':' :: q.2 ++ ['\n']

/-- The input stream consisting of the given (name, password) lines in
order. -/
def mkInput (ls : List (List Char × List Char)) : List Char :=
  (ls.map mkLine).flatten

/-- The credential held for group `n` after a sequence of accepted lines,
starting from credential `c`: each line naming `n` overwrites it with
`encryptField` of that line's password (last occurrence wins), other
lines leave it alone. -/
def lastCred (cfg : Config) (c : List Char)
    (ls : List (List Char × List Char)) (n : List Char) : List Char :=
  ls.foldl (fun acc q => if q.1 = n then (encryptField cfg q.2).1 else acc) c

/-! ### Lemmas about the `fgets` model -/

theorem takeLine_concat (k : Nat) (s : List Char) :
    (takeLine k s).1 ++ (takeLine k s).2 = s := by
  induction s generalizing k with
  | nil => cases k <;> simp [takeLine]
  | cons c s ih =>
      cases k with
      | zero => simp [takeLine]
      | succ k =>
          by_cases hc : c = '\n'
          · simp [takeLine, hc]
          · simp [takeLine, hc, ih k]

theorem takeLine_append_nl (k : Nat) (s t : List Char) (h : '\n' ∉ s)
    (hk : s.length < k) : takeLine k (s ++ '\n' :: t) = (s ++ ['\n'], t) := by
  induction s generalizing k with
  | nil =>
      cases k with
      | zero => simp at hk
      | succ k => simp [takeLine]
  | cons c s ih =>
      cases k with
      | zero => simp at hk
      | succ k =>
          have hc : c ≠ '\n' := fun hc => h (by simp [hc])
          have hs : '\n' ∉ s := fun hm => h (List.mem_cons_of_mem _ hm)
          have hk' : s.length < k := by simpa using hk
          simp [takeLine, hc, ih k hs hk']

theorem takeLine_of_no_nl (k : Nat) (s : List Char) (h : '\n' ∉ s)
    (hk : s.length ≤ k) : takeLine k s = (s, []) := by
  induction s generalizing k with
  | nil => cases k <;> simp [takeLine]
  | cons c s ih =>
      cases k with
      | zero => simp at hk
      | succ k =>
          have hc : c ≠ '\n' := fun hc => h (by simp [hc])
          have hs : '\n' ∉ s := fun hm => h (List.mem_cons_of_mem _ hm)
          have hk' : s.length ≤ k := by simpa using hk
          simp [takeLine, hc, ih k hs hk']

theorem takeLine_fst_ne_nil (k : Nat) (s : List Char) (hk : 0 < k)
    (hs : s ≠ []) : (takeLine k s).1 ≠ [] := by
  cases s with
  | nil => exact absurd rfl hs
  | cons c s =>
      cases k with
      | zero => simp at hk
      | succ k =>
          by_cases hc : c = '\n' <;> simp [takeLine, hc]

theorem takeLine_nl_getLast (k : Nat) (s : List Char)
    (h : '\n' ∈ (takeLine k s).1) : (takeLine k s).1.getLast? = some '\n' := by
  induction s generalizing k with
  | nil =>
      cases k <;> simp [takeLine] at h
  | cons c s ih =>
      cases k with
      | zero => simp [takeLine] at h
      | succ k =>
          by_cases hc : c = '\n'
          · simp [takeLine, hc]
          · simp only [takeLine, if_neg hc] at h ⊢
            have hmem : '\n' ∈ (takeLine k s).1 := by
              rcases List.mem_cons.mp h with h1 | h1
              · exact absurd h1.symm hc
              · exact h1
            have hlast := ih k hmem
            cases hq : (takeLine k s).1 with
            | nil => rw [hq] at hmem; simp at hmem
            | cons b l =>
                rw [hq] at hlast
                rw [List.getLast?_cons_cons]
                exact hlast

theorem takeLine_snd_lt (k : Nat) (s : List Char) (hk : 0 < k)
    (hs : s ≠ []) : (takeLine k s).2.length < s.length := by
  have hc := takeLine_concat k s
  have hne := takeLine_fst_ne_nil k s hk hs
  have : (takeLine k s).1.length + (takeLine k s).2.length = s.length := by
    rw [← List.length_append, hc]
  have h1 : 0 < (takeLine k s).1.length := List.length_pos.mpr hne
  omega

theorem fgetsLoop_nil (f : Nat) : fgetsLoop f [] = [] := by
  cases f <;> rfl

theorem fgetsLoop_cons (f : Nat) (s : List Char) (hs : s ≠ []) :
    fgetsLoop (f + 1) s =
      (takeLine (BUFSIZ - 1) s).1 :: fgetsLoop f (takeLine (BUFSIZ - 1) s).2 := by
  cases s with
  | nil => exact absurd rfl hs
  | cons c s => rfl

theorem fgetsLoop_congr (f₁ : Nat) : ∀ (f₂ : Nat) (s : List Char),
    s.length ≤ f₁ → s.length ≤ f₂ → fgetsLoop f₁ s = fgetsLoop f₂ s := by
  induction f₁ with
  | zero =>
      intro f₂ s h1 _
      have : s = [] := List.eq_nil_of_length_eq_zero (Nat.le_zero.mp h1)
      subst this
      rw [fgetsLoop_nil, fgetsLoop_nil]
  | succ f₁ ih =>
      intro f₂ s h1 h2
      by_cases hs : s = []
      · subst hs; rw [fgetsLoop_nil, fgetsLoop_nil]
      · have hlen : 0 < s.length := List.length_pos.mpr hs
        cases f₂ with
        | zero => omega
        | succ f₂ =>
            rw [fgetsLoop_cons f₁ s hs, fgetsLoop_cons f₂ s hs]
            have hlt := takeLine_snd_lt (BUFSIZ - 1) s (by decide) hs
            exact congrArg _ (ih f₂ _ (by omega) (by omega))

theorem fgetsAll_nil : fgetsAll [] = [] := rfl

theorem fgetsAll_cons_line (s t : List Char) (h : '\n' ∉ s)
    (hlen : s.length < BUFSIZ - 1) :
    fgetsAll (s ++ '\n' :: t) = (s ++ ['\n']) :: fgetsAll t := by
  have h2 : takeLine (BUFSIZ - 1) (s ++ '\n' :: t) = (s ++ ['\n'], t) :=
    takeLine_append_nl (BUFSIZ - 1) s t h hlen
  have hne : s ++ '\n' :: t ≠ [] := by simp
  have hstep : ∀ f, fgetsLoop (f + 1) (s ++ '\n' :: t) =
      (s ++ ['\n']) :: fgetsLoop f t := by
    intro f
    rw [fgetsLoop_cons f _ hne, h2]
  have hl : (s ++ '\n' :: t).length = s.length + t.length + 1 := by
    simp; omega
  unfold fgetsAll
  rw [hl, hstep (s.length + t.length)]
  exact congrArg _
    (fgetsLoop_congr (s.length + t.length) t.length t (by omega) (le_refl _))

theorem fgetsLoop_flatten (f : Nat) : ∀ s : List Char,
    s.length ≤ f → (fgetsLoop f s).flatten = s := by
  induction f with
  | zero =>
      intro s h1
      have : s = [] := List.eq_nil_of_length_eq_zero (Nat.le_zero.mp h1)
      subst this
      rw [fgetsLoop_nil]; rfl
  | succ f ih =>
      intro s h1
      by_cases hs : s = []
      · subst hs; rw [fgetsLoop_nil]; rfl
      · rw [fgetsLoop_cons f s hs]
        have hlt := takeLine_snd_lt (BUFSIZ - 1) s (by decide) hs
        rw [List.flatten_cons, ih _ (by omega), takeLine_concat]

theorem fgetsAll_flatten (s : List Char) : (fgetsAll s).flatten = s :=
  fgetsLoop_flatten s.length s (le_refl _)

theorem fgetsAll_mem (s : List Char) : ∀ c ∈ fgetsAll s,
    c ≠ [] ∧ ('\n' ∈ c → c.getLast? = some '\n') := by
  unfold fgetsAll
  generalize s.length = f
  induction f generalizing s with
  | zero => simp [fgetsLoop_nil, fgetsLoop]
  | succ f ih =>
      intro c hc
      by_cases hs : s = []
      · subst hs; rw [fgetsLoop_nil] at hc; simp at hc
      · rw [fgetsLoop_cons f s hs] at hc
        rcases List.mem_cons.mp hc with h1 | h1
        · subst h1
          exact ⟨takeLine_fst_ne_nil _ s (by decide) hs,
                 takeLine_nl_getLast _ s⟩
        · exact ih _ c h1

/-! ### Lemmas about the line parser -/

theorem dropThroughNl_eq_none_iff (l : List Char) :
    dropThroughNl l = none ↔ '\n' ∉ l := by
  induction l with
  | nil => simp [dropThroughNl]
  | cons c s ih =>
      by_cases hc : c = '\n'
      · subst hc; simp [dropThroughNl]
      · rw [dropThroughNl, if_neg hc, ih]
        simp [List.mem_cons, (Ne.symm hc : '\n' ≠ c)]

theorem truncAtLastNl_eq_none_iff (buf : List Char) :
    truncAtLastNl buf = none ↔ '\n' ∉ buf := by
  unfold truncAtLastNl
  rw [Option.map_eq_none', dropThroughNl_eq_none_iff, List.mem_reverse]

theorem truncAtLastNl_append_nl (s : List Char) :
    truncAtLastNl (s ++ ['\n']) = some s := by
  unfold truncAtLastNl
  rw [List.reverse_append]
  have : dropThroughNl ('\n' :: s.reverse) = some s.reverse := by
    simp [dropThroughNl]
  simp [this]

theorem splitAtFirstColon_append (n p : List Char) (h : ':' ∉ n) :
    splitAtFirstColon (n ++ ':' :: p) = some (n, p) := by
  induction n with
  | nil => simp [splitAtFirstColon]
  | cons c s ih =>
      have hc : c ≠ ':' := fun hc => h (by simp [hc])
      have hs : ':' ∉ s := fun hm => h (List.mem_cons_of_mem _ hm)
      simp [splitAtFirstColon, hc, ih hs]

theorem splitAtFirstColon_eq_none (s : List Char) (h : ':' ∉ s) :
    splitAtFirstColon s = none := by
  induction s with
  | nil => rfl
  | cons c s ih =>
      have hc : c ≠ ':' := fun hc => h (by simp [hc])
      have hs : ':' ∉ s := fun hm => h (List.mem_cons_of_mem _ hm)
      simp [splitAtFirstColon, hc, ih hs]

/-! ### Lemmas about the database model -/

theorem gr_locate_name (db : List group) (n : List Char) (g : group)
    (h : gr_locate db n = some g) : g.gr_name = n := by
  induction db with
  | nil => simp [gr_locate] at h
  | cons g1 rest ih =>
      by_cases h1 : g1.gr_name = n
      · rw [gr_locate, if_pos h1] at h
        cases h
        exact h1
      · rw [gr_locate, if_neg h1] at h
        exact ih h

theorem sgr_locate_name (db : List sgrp) (n : List Char) (g : sgrp)
    (h : sgr_locate db n = some g) : g.sg_name = n := by
  induction db with
  | nil => simp [sgr_locate] at h
  | cons g1 rest ih =>
      by_cases h1 : g1.sg_name = n
      · rw [sgr_locate, if_pos h1] at h
        cases h
        exact h1
      · rw [sgr_locate, if_neg h1] at h
        exact ih h

theorem gr_update_of_locate (db : List group) (n : List Char) (g ng : group)
    (hloc : gr_locate db n = some g) (hname : ng.gr_name = g.gr_name) :
    ∃ db', gr_update db ng = some db' ∧ gr_locate db' n = some ng := by
  induction db with
  | nil => simp [gr_locate] at hloc
  | cons g1 rest ih =>
      by_cases h1 : g1.gr_name = n
      · rw [gr_locate, if_pos h1] at hloc
        injection hloc with hgg
        have hn : g1.gr_name = ng.gr_name := by rw [hgg, hname]
        refine ⟨ng :: rest, ?_, ?_⟩
        · rw [gr_update, if_pos hn]
        · have hx : ng.gr_name = n := by rw [hname, ← hgg, h1]
          rw [gr_locate, if_pos hx]
      · rw [gr_locate, if_neg h1] at hloc
        have hgn : g.gr_name = n := gr_locate_name rest n g hloc
        have hn : ¬g1.gr_name = ng.gr_name := by
          rw [hname, hgn]; exact h1
        obtain ⟨db'', hu, hl⟩ := ih hloc
        refine ⟨g1 :: db'', ?_, ?_⟩
        · rw [gr_update, if_neg hn, hu]; rfl
        · rw [gr_locate, if_neg h1]; exact hl

theorem sgr_update_of_locate (db : List sgrp) (n : List Char) (g ng : sgrp)
    (hloc : sgr_locate db n = some g) (hname : ng.sg_name = g.sg_name) :
    ∃ db', sgr_update db ng = some db' ∧ sgr_locate db' n = some ng := by
  induction db with
  | nil => simp [sgr_locate] at hloc
  | cons g1 rest ih =>
      by_cases h1 : g1.sg_name = n
      · rw [sgr_locate, if_pos h1] at hloc
        injection hloc with hgg
        have hn : g1.sg_name = ng.sg_name := by rw [hgg, hname]
        refine ⟨ng :: rest, ?_, ?_⟩
        · rw [sgr_update, if_pos hn]
        · have hx : ng.sg_name = n := by rw [hname, ← hgg, h1]
          rw [sgr_locate, if_pos hx]
      · rw [sgr_locate, if_neg h1] at hloc
        have hgn : g.sg_name = n := sgr_locate_name rest n g hloc
        have hn : ¬g1.sg_name = ng.sg_name := by
          rw [hname, hgn]; exact h1
        obtain ⟨db'', hu, hl⟩ := ih hloc
        refine ⟨g1 :: db'', ?_, ?_⟩
        · rw [sgr_update, if_neg hn, hu]; rfl
        · rw [sgr_locate, if_neg h1]; exact hl

/-! ### Characterizations of one loop iteration -/

theorem processLine_parsed (cfg : Config) (st : RunState) (n p : List Char)
    (hn : ':' ∉ n) :
    processLine cfg st (n ++ ':' :: p ++ ['\n']) =
      processParsed cfg { st with lineNo := st.lineNo + 1 } n p := by
  have hb : n ++ ':' :: p ++ ['\n'] = (n ++ ':' :: p) ++ ['\n'] := by simp
  rw [hb]
  simp only [processLine, truncAtLastNl_append_nl, splitAtFirstColon_append n p hn]

theorem processLine_tooLong (cfg : Config) (st : RunState) (buf : List Char)
    (h : '\n' ∉ buf) :
    processLine cfg st buf =
      { st with lineNo := st.lineNo + 1, errors := st.errors + 1,
                diags := st.diags ++ [Diag.lineTooLong (st.lineNo + 1)] } := by
  unfold processLine
  rw [(truncAtLastNl_eq_none_iff buf).mpr h]

theorem processLine_noColon (cfg : Config) (st : RunState) (s : List Char)
    (h : ':' ∉ s) :
    processLine cfg st (s ++ ['\n']) =
      { st with lineNo := st.lineNo + 1, errors := st.errors + 1,
                diags := st.diags ++ [Diag.missingNewPassword (st.lineNo + 1)] } := by
  simp only [processLine, truncAtLastNl_append_nl, splitAtFirstColon_eq_none s h]

theorem processParsed_unknown (cfg : Config) (st : RunState) (n p : List Char)
    (hg : gr_locate st.grdb n = none) :
    processParsed cfg st n p =
      { st with encCalls := st.encCalls + (encryptField cfg p).2,
                errors := st.errors + 1,
                diags := st.diags ++ [Diag.unknownGroup st.lineNo n] } := by
  simp [processParsed, hg]

theorem processParsed_shadow (cfg : Config) (st : RunState) (n p : List Char)
    (gr : group) (sg : sgrp) (db' : List sgrp)
    (hs : cfg.is_shadow_grp = true)
    (hg : gr_locate st.grdb n = some gr)
    (hsg : sgr_locate st.sgrdb n = some sg)
    (hu : sgr_update st.sgrdb { sg with sg_passwd := (encryptField cfg p).1 } = some db') :
    processParsed cfg st n p =
      { st with encCalls := st.encCalls + (encryptField cfg p).2,
                sgrdb := db' } := by
  simp [processParsed, hg, hs, hsg, hu]

theorem processParsed_primary (cfg : Config) (st : RunState) (n p : List Char)
    (gr : group) (db' : List group)
    (hg : gr_locate st.grdb n = some gr)
    (hsg : (if cfg.is_shadow_grp then sgr_locate st.sgrdb n else none) = none)
    (hu : gr_update st.grdb { gr with gr_passwd := (encryptField cfg p).1 } = some db') :
    processParsed cfg st n p =
      { st with encCalls := st.encCalls + (encryptField cfg p).2,
                grdb := db' } := by
  simp only [processParsed, hg, hsg, hu]

/-! ### Lemmas about the main loop -/

theorem runLines_nil (cfg : Config) (st : RunState) : runLines cfg st [] = st := rfl

theorem runLines_cons (cfg : Config) (st : RunState) (b : List Char)
    (bs : List (List Char)) :
    runLines cfg st (b :: bs) = runLines cfg (processLine cfg st b) bs := rfl

theorem runLines_append (cfg : Config) (st : RunState)
    (cs ds : List (List Char)) :
    runLines cfg st (cs ++ ds) = runLines cfg (runLines cfg st cs) ds := by
  induction cs generalizing st with
  | nil => rfl
  | cons c cs ih => rw [List.cons_append, runLines_cons, runLines_cons, ih]

theorem processLine_parsed_eq (cfg : Config) (st : RunState) (b content : List Char)
    (q : List Char × List Char) (ht : truncAtLastNl b = some content)
    (hc : splitAtFirstColon content = some q) :
    processLine cfg st b =
      processParsed cfg { st with lineNo := st.lineNo + 1 } q.1 q.2 := by
  simp [processLine, ht, hc]

theorem processParsed_lineNo (cfg : Config) (st : RunState) (n p : List Char) :
    (processParsed cfg st n p).lineNo = st.lineNo := by
  cases hg : gr_locate st.grdb n with
  | none => simp [processParsed, hg]
  | some gr =>
      cases hs : (if cfg.is_shadow_grp then sgr_locate st.sgrdb n else none) with
      | some sg =>
          cases hu : sgr_update st.sgrdb { sg with sg_passwd := (encryptField cfg p).1 } with
          | none => simp [processParsed, hg, hs, hu]
          | some db' => simp [processParsed, hg, hs, hu]
      | none =>
          cases hu : gr_update st.grdb { gr with gr_passwd := (encryptField cfg p).1 } with
          | none => simp [processParsed, hg, hs, hu]
          | some db' => simp [processParsed, hg, hs, hu]

theorem processLine_lineNo (cfg : Config) (st : RunState) (b : List Char) :
    (processLine cfg st b).lineNo = st.lineNo + 1 := by
  cases ht : truncAtLastNl b with
  | none => simp [processLine, ht]
  | some content =>
      cases hc : splitAtFirstColon content with
      | none => simp [processLine, ht, hc]
      | some q =>
          rw [processLine_parsed_eq cfg st b content q ht hc, processParsed_lineNo]

theorem runLines_lineNo (cfg : Config) (st : RunState) (cs : List (List Char)) :
    (runLines cfg st cs).lineNo = st.lineNo + cs.length := by
  induction cs generalizing st with
  | nil => rfl
  | cons c cs ih =>
      rw [runLines_cons, ih, processLine_lineNo, List.length_cons]
      omega

theorem processParsed_diag_err (cfg : Config) (st : RunState) (n p : List Char) :
    ∃ l, (processParsed cfg st n p).diags = st.diags ++ l ∧
         (processParsed cfg st n p).errors = st.errors + l.length := by
  cases hg : gr_locate st.grdb n with
  | none =>
      exact ⟨[Diag.unknownGroup st.lineNo n], by simp [processParsed, hg],
             by simp [processParsed, hg]⟩
  | some gr =>
      cases hs : (if cfg.is_shadow_grp then sgr_locate st.sgrdb n else none) with
      | some sg =>
          cases hu : sgr_update st.sgrdb { sg with sg_passwd := (encryptField cfg p).1 } with
          | none =>
              exact ⟨[Diag.sgrUpdateFailed st.lineNo sg.sg_name],
                     by simp [processParsed, hg, hs, hu],
                     by simp [processParsed, hg, hs, hu]⟩
          | some db' =>
              exact ⟨[], by simp [processParsed, hg, hs, hu],
                     by simp [processParsed, hg, hs, hu]⟩
      | none =>
          cases hu : gr_update st.grdb { gr with gr_passwd := (encryptField cfg p).1 } with
          | none =>
              exact ⟨[Diag.grUpdateFailed st.lineNo gr.gr_name],
                     by simp [processParsed, hg, hs, hu],
                     by simp [processParsed, hg, hs, hu]⟩
          | some db' =>
              exact ⟨[], by simp [processParsed, hg, hs, hu],
                     by simp [processParsed, hg, hs, hu]⟩

theorem processLine_diag_err (cfg : Config) (st : RunState) (b : List Char) :
    ∃ l, (processLine cfg st b).diags = st.diags ++ l ∧
         (processLine cfg st b).errors = st.errors + l.length := by
  cases ht : truncAtLastNl b with
  | none =>
      exact ⟨[Diag.lineTooLong (st.lineNo + 1)],
             by simp [processLine, ht], by simp [processLine, ht]⟩
  | some content =>
      cases hc : splitAtFirstColon content with
      | none =>
          exact ⟨[Diag.missingNewPassword (st.lineNo + 1)],
                 by simp [processLine, ht, hc], by simp [processLine, ht, hc]⟩
      | some q =>
          rw [processLine_parsed_eq cfg st b content q ht hc]
          exact processParsed_diag_err cfg { st with lineNo := st.lineNo + 1 } q.1 q.2

theorem runLines_diag_err (cfg : Config) (st : RunState) (cs : List (List Char)) :
    ∃ l, (runLines cfg st cs).diags = st.diags ++ l ∧
         (runLines cfg st cs).errors = st.errors + l.length := by
  induction cs generalizing st with
  | nil => exact ⟨[], by simp [runLines_nil], by simp [runLines_nil]⟩
  | cons c cs ih =>
      rw [runLines_cons]
      obtain ⟨l1, hd1, he1⟩ := processLine_diag_err cfg st c
      obtain ⟨l2, hd2, he2⟩ := ih (processLine cfg st c)
      refine ⟨l1 ++ l2, ?_, ?_⟩
      · rw [hd2, hd1, List.append_assoc]
      · rw [he2, he1, List.length_append]; omega

theorem encryptField_eflg (cfg : Config) (p : List Char) (he : cfg.eflg = true) :
    encryptField cfg p = (p, 0) := by
  unfold encryptField
  rw [if_neg]
  intro hcond
  exact hcond.1 he

theorem encryptField_methodNONE (cfg : Config) (p : List Char)
    (hm : cfg.crypt_method = some CryptMethod.NONE) :
    encryptField cfg p = (p, 0) := by
  unfold encryptField
  rw [if_neg]
  intro hcond
  rcases hcond.2 with h | h
  · rw [hm] at h; cases h
  · exact h hm

theorem processParsed_encCalls (cfg : Config) (st : RunState) (n p : List Char) :
    (processParsed cfg st n p).encCalls = st.encCalls + (encryptField cfg p).2 := by
  cases hg : gr_locate st.grdb n with
  | none => simp [processParsed, hg]
  | some gr =>
      cases hs : (if cfg.is_shadow_grp then sgr_locate st.sgrdb n else none) with
      | some sg =>
          cases hu : sgr_update st.sgrdb { sg with sg_passwd := (encryptField cfg p).1 } with
          | none => simp [processParsed, hg, hs, hu]
          | some db' => simp [processParsed, hg, hs, hu]
      | none =>
          cases hu : gr_update st.grdb { gr with gr_passwd := (encryptField cfg p).1 } with
          | none => simp [processParsed, hg, hs, hu]
          | some db' => simp [processParsed, hg, hs, hu]

/-! ### Branch characterizations of the whole run -/

theorem chgpasswd_run_abort (cfg : Config) (env : Env) (g0 : List group)
    (s0 : List sgrp) (input : List Char)
    (h1 : env.grLockOk = true) (h2 : env.grOpenOk = true)
    (h3 : ¬(cfg.is_shadow_grp = true ∧ ¬env.sgrLockOk = true))
    (h4 : ¬(cfg.is_shadow_grp = true ∧ ¬env.sgrOpenOk = true))
    (herr : (runLines cfg (initState g0 s0) (fgetsAll input)).errors ≠ 0) :
    chgpasswd_run cfg env g0 s0 input =
      { exitCode := 1,
        trace := ([Event.grLock, Event.grOpen] ++
            (if cfg.is_shadow_grp then [Event.sgrLock, Event.sgrOpen] else [])) ++
          fail_exit_trace true cfg.is_shadow_grp,
        grdbFinal := g0, sgrdbFinal := s0,
        errors := (runLines cfg (initState g0 s0) (fgetsAll input)).errors,
        diags := (runLines cfg (initState g0 s0) (fgetsAll input)).diags,
        encCalls := (runLines cfg (initState g0 s0) (fgetsAll input)).encCalls,
        lines := (runLines cfg (initState g0 s0) (fgetsAll input)).lineNo } := by
  simp only [chgpasswd_run, h1, h2, h3, h4]
  simp [herr]

theorem chgpasswd_run_commit (cfg : Config) (env : Env) (g0 : List group)
    (s0 : List sgrp) (input : List Char)
    (h1 : env.grLockOk = true) (h2 : env.grOpenOk = true)
    (h3 : ¬(cfg.is_shadow_grp = true ∧ ¬env.sgrLockOk = true))
    (h4 : ¬(cfg.is_shadow_grp = true ∧ ¬env.sgrOpenOk = true))
    (herr : (runLines cfg (initState g0 s0) (fgetsAll input)).errors = 0) :
    chgpasswd_run cfg env g0 s0 input =
      { exitCode := 0,
        trace := ([Event.grLock, Event.grOpen] ++
            (if cfg.is_shadow_grp then [Event.sgrLock, Event.sgrOpen] else [])) ++
          (if cfg.is_shadow_grp then [Event.sgrClose, Event.sgrUnlock] else []) ++
          [Event.grClose, Event.grUnlock],
        grdbFinal := (runLines cfg (initState g0 s0) (fgetsAll input)).grdb,
        sgrdbFinal := if cfg.is_shadow_grp then
            (runLines cfg (initState g0 s0) (fgetsAll input)).sgrdb
          else s0,
        errors := 0,
        diags := (runLines cfg (initState g0 s0) (fgetsAll input)).diags,
        encCalls := (runLines cfg (initState g0 s0) (fgetsAll input)).encCalls,
        lines := (runLines cfg (initState g0 s0) (fgetsAll input)).lineNo } := by
  simp only [chgpasswd_run, h1, h2, h3, h4]
  simp [herr]

/-! ### Concrete fixtures used by the witness theorems -/

/-- A concrete stand-in encoder for witnesses: prefixes the password. -/
def encW : List Char → List Char := fun p => 'E' :: p

/-- Witness configuration: no special flags, shadow database present. -/
def cfgW : Config := ⟨false, false, none, true, encW⟩

/-- Witness configuration: shadow database absent. -/
def cfgWnoShadow : Config := ⟨false, false, none, false, encW⟩

/-- Witness configuration: `-e` (already-encrypted) set. -/
def cfgWe : Config := ⟨true, false, none, true, encW⟩

/-- Witness configuration: `-c NONE` selected. -/
def cfgWnone : Config := ⟨false, false, some CryptMethod.NONE, true, encW⟩

/-- Witness group record. -/
def grW : group := ⟨['g', '1'], ['o'], 5, [['u']]⟩

/-- Witness shadow-group record. -/
def sgW : sgrp := ⟨['g', '1'], ['s'], [['a']], [['u']]⟩

/-- Witness primary database. -/
def g0W : List group := [grW]

/-- Witness shadow database. -/
def s0W : List sgrp := [sgW]

/-- Witness initial loop state. -/
def stW : RunState := ⟨g0W, s0W, 0, 0, 0, []⟩

/-! ### The claims -/

/-- Claim C5: each input line is split at its first colon — everything
before it is the group name, everything after it (embedded colons
included) is the password field verbatim — and a line with no colon is
reported with its 1-based line number, counted as exactly one batch
error, and the loop continues with the next line instead of
terminating. -/
theorem claim_C5_first_colon_split_and_missing_colon
    (cfg : Config) (st : RunState) (n p s : List Char)
    (hn : ':' ∉ n) (hs : ':' ∉ s) :
    splitAtFirstColon (n ++ ':' :: p) = some (n, p) ∧
    processLine cfg st (s ++ ['\n']) =
      { st with lineNo := st.lineNo + 1, errors := st.errors + 1,
                diags := st.diags ++ [Diag.missingNewPassword (st.lineNo + 1)] } ∧
    (∀ rest, runLines cfg st ((s ++ ['\n']) :: rest) =
        runLines cfg (processLine cfg st (s ++ ['\n'])) rest) :=
  ⟨splitAtFirstColon_append n p hn, processLine_noColon cfg st s hs,
   fun _ => rfl⟩

/-- Witness for C5 at a concrete line with two colons and a concrete
colon-free line. -/
theorem claim_C5_witness :
    splitAtFirstColon (['g'] ++ ':' :: ['a', ':', 'b']) = some (['g'], ['a', ':', 'b']) ∧
    processLine cfgW stW (['x'] ++ ['\n']) =
      { stW with lineNo := stW.lineNo + 1, errors := stW.errors + 1,
                 diags := stW.diags ++ [Diag.missingNewPassword (stW.lineNo + 1)] } :=
  ⟨(claim_C5_first_colon_split_and_missing_colon cfgW stW ['g'] ['a', ':', 'b'] ['x']
      (by decide) (by decide)).1,
   (claim_C5_first_colon_split_and_missing_colon cfgW stW ['g'] ['a', ':', 'b'] ['x']
      (by decide) (by decide)).2.1⟩

/-- Claim C6: a parsed line naming a group that `gr_locate` does not find
increments the error counter by exactly one, emits a diagnostic carrying
the line number and the group name, leaves both in-memory databases
unchanged (no new entry is created in either), and the loop continues
with the next line. -/
theorem claim_C6_unknown_group
    (cfg : Config) (st : RunState) (n p : List Char)
    (hn : ':' ∉ n) (hg : gr_locate st.grdb n = none) :
    processLine cfg st (n ++ ':' :: p ++ ['\n']) =
      { st with lineNo := st.lineNo + 1,
                encCalls := st.encCalls + (encryptField cfg p).2,
                errors := st.errors + 1,
                diags := st.diags ++ [Diag.unknownGroup (st.lineNo + 1) n] } ∧
    (∀ rest, runLines cfg st ((n ++ ':' :: p ++ ['\n']) :: rest) =
        runLines cfg (processLine cfg st (n ++ ':' :: p ++ ['\n'])) rest) := by
  constructor
  · rw [processLine_parsed cfg st n p hn]
    rw [processParsed_unknown cfg { st with lineNo := st.lineNo + 1 } n p hg]
  · intro rest
    rfl

/-- Witness for C6 at a concrete unknown group name. -/
theorem claim_C6_witness :
    processLine cfgW stW (['g', '2'] ++ ':' :: ['q'] ++ ['\n']) =
      { stW with lineNo := stW.lineNo + 1,
                 encCalls := stW.encCalls + (encryptField cfgW ['q']).2,
                 errors := stW.errors + 1,
                 diags := stW.diags ++ [Diag.unknownGroup (stW.lineNo + 1) ['g', '2']] } :=
  (claim_C6_unknown_group cfgW stW ['g', '2'] ['q'] (by decide) (by decide)).1

/-- Claim C4: with the already-encrypted flag (`-e` / `eflg`) set, an
accepted line never invokes the password encoder (the `pw_encrypt` call
count is unchanged) and the staged credential is the password field of
the line exactly — in the shadow record when one is located, otherwise
in the primary record. -/
theorem claim_C4_already_encrypted_passthrough
    (cfg : Config) (st : RunState) (n p : List Char) (gr : group)
    (he : cfg.eflg = true) (hn : ':' ∉ n)
    (hg : gr_locate st.grdb n = some gr) :
    (processLine cfg st (n ++ ':' :: p ++ ['\n'])).encCalls = st.encCalls ∧
    (∀ sg, sgr_locate st.sgrdb n = some sg → cfg.is_shadow_grp = true →
        sgr_update st.sgrdb { sg with sg_passwd := p } =
          some ((processLine cfg st (n ++ ':' :: p ++ ['\n'])).sgrdb)) ∧
    ((if cfg.is_shadow_grp then sgr_locate st.sgrdb n else none) = none →
        gr_update st.grdb { gr with gr_passwd := p } =
          some ((processLine cfg st (n ++ ':' :: p ++ ['\n'])).grdb)) := by
  have hef : encryptField cfg p = (p, 0) := encryptField_eflg cfg p he
  rw [processLine_parsed cfg st n p hn]
  refine ⟨?_, ?_, ?_⟩
  · rw [processParsed_encCalls, hef]
    rfl
  · intro sg hsg hs
    obtain ⟨db', hu, hl⟩ := sgr_update_of_locate st.sgrdb n sg
      { sg with sg_passwd := (encryptField cfg p).1 } hsg rfl
    rw [processParsed_shadow cfg { st with lineNo := st.lineNo + 1 } n p gr sg db' hs hg hsg hu]
    rw [hef] at hu
    exact hu
  · intro hnone
    obtain ⟨db', hu, hl⟩ := gr_update_of_locate st.grdb n gr
      { gr with gr_passwd := (encryptField cfg p).1 } hg rfl
    rw [processParsed_primary cfg { st with lineNo := st.lineNo + 1 } n p gr db' hg hnone hu]
    rw [hef] at hu
    exact hu

/-- Witness for C4 at a concrete accepted line under `-e`. -/
theorem claim_C4_witness :
    (processLine cfgWe stW (['g', '1'] ++ ':' :: ['p', 'w'] ++ ['\n'])).encCalls = stW.encCalls ∧
    sgr_update stW.sgrdb { sgW with sg_passwd := ['p', 'w'] } =
      some ((processLine cfgWe stW (['g', '1'] ++ ':' :: ['p', 'w'] ++ ['\n'])).sgrdb) :=
  ⟨(claim_C4_already_encrypted_passthrough cfgWe stW ['g', '1'] ['p', 'w'] grW
      (by decide) (by decide) (by decide)).1,
   (claim_C4_already_encrypted_passthrough cfgWe stW ['g', '1'] ['p', 'w'] grW
      (by decide) (by decide) (by decide)).2.1 sgW (by decide) (by decide)⟩

/-- Claim C10: with `-c NONE` selected and `-e` not set, the encoder is
bypassed just as in already-encrypted mode: an accepted line leaves the
`pw_encrypt` call count unchanged and stages the cleartext password field
verbatim. -/
theorem claim_C10_crypt_method_none_passthrough
    (cfg : Config) (st : RunState) (n p : List Char) (gr : group)
    (he : cfg.eflg = false) (hm : cfg.crypt_method = some CryptMethod.NONE)
    (hn : ':' ∉ n) (hg : gr_locate st.grdb n = some gr) :
    (processLine cfg st (n ++ ':' :: p ++ ['\n'])).encCalls = st.encCalls ∧
    (∀ sg, sgr_locate st.sgrdb n = some sg → cfg.is_shadow_grp = true →
        sgr_update st.sgrdb { sg with sg_passwd := p } =
          some ((processLine cfg st (n ++ ':' :: p ++ ['\n'])).sgrdb)) ∧
    ((if cfg.is_shadow_grp then sgr_locate st.sgrdb n else none) = none →
        gr_update st.grdb { gr with gr_passwd := p } =
          some ((processLine cfg st (n ++ ':' :: p ++ ['\n'])).grdb)) := by
  have hef : encryptField cfg p = (p, 0) := encryptField_methodNONE cfg p hm
  rw [processLine_parsed cfg st n p hn]
  refine ⟨?_, ?_, ?_⟩
  · rw [processParsed_encCalls, hef]
    rfl
  · intro sg hsg hs
    obtain ⟨db', hu, hl⟩ := sgr_update_of_locate st.sgrdb n sg
      { sg with sg_passwd := (encryptField cfg p).1 } hsg rfl
    rw [processParsed_shadow cfg { st with lineNo := st.lineNo + 1 } n p gr sg db' hs hg hsg hu]
    rw [hef] at hu
    exact hu
  · intro hnone
    obtain ⟨db', hu, hl⟩ := gr_update_of_locate st.grdb n gr
      { gr with gr_passwd := (encryptField cfg p).1 } hg rfl
    rw [processParsed_primary cfg { st with lineNo := st.lineNo + 1 } n p gr db' hg hnone hu]
    rw [hef] at hu
    exact hu

/-- Witness for C10 at a concrete accepted line under `-c NONE`. -/
theorem claim_C10_witness :
    (processLine cfgWnone stW (['g', '1'] ++ ':' :: ['c', 'l'] ++ ['\n'])).encCalls = stW.encCalls ∧
    sgr_update stW.sgrdb { sgW with sg_passwd := ['c', 'l'] } =
      some ((processLine cfgWnone stW (['g', '1'] ++ ':' :: ['c', 'l'] ++ ['\n'])).sgrdb) :=
  ⟨(claim_C10_crypt_method_none_passthrough cfgWnone stW ['g', '1'] ['c', 'l'] grW
      (by decide) (by decide) (by decide) (by decide)).1,
   (claim_C10_crypt_method_none_passthrough cfgWnone stW ['g', '1'] ['c', 'l'] grW
      (by decide) (by decide) (by decide) (by decide)).2.1 sgW (by decide) (by decide)⟩

/-- Claim C3: on an accepted line whose group has both a primary record
and (with the shadow database active) a located shadow record, only the
shadow record is staged with the new credential and the primary database
is untouched by that line; when the shadow database is active but has no
record for the name, the credential is staged into the primary record,
the shadow database is untouched, and no error is counted. -/
theorem claim_C3_shadow_precedence
    (cfg : Config) (st : RunState) (n p : List Char) (gr : group)
    (hs : cfg.is_shadow_grp = true) (hn : ':' ∉ n)
    (hg : gr_locate st.grdb n = some gr) :
    (∀ sg, sgr_locate st.sgrdb n = some sg →
        (processLine cfg st (n ++ ':' :: p ++ ['\n'])).grdb = st.grdb ∧
        sgr_update st.sgrdb { sg with sg_passwd := (encryptField cfg p).1 } =
          some ((processLine cfg st (n ++ ':' :: p ++ ['\n'])).sgrdb) ∧
        (processLine cfg st (n ++ ':' :: p ++ ['\n'])).errors = st.errors) ∧
    (sgr_locate st.sgrdb n = none →
        gr_update st.grdb { gr with gr_passwd := (encryptField cfg p).1 } =
          some ((processLine cfg st (n ++ ':' :: p ++ ['\n'])).grdb) ∧
        (processLine cfg st (n ++ ':' :: p ++ ['\n'])).sgrdb = st.sgrdb ∧
        (processLine cfg st (n ++ ':' :: p ++ ['\n'])).errors = st.errors) := by
  rw [processLine_parsed cfg st n p hn]
  constructor
  · intro sg hsg
    obtain ⟨db', hu, hl⟩ := sgr_update_of_locate st.sgrdb n sg
      { sg with sg_passwd := (encryptField cfg p).1 } hsg rfl
    rw [processParsed_shadow cfg { st with lineNo := st.lineNo + 1 } n p gr sg db' hs hg hsg hu]
    exact ⟨rfl, hu, rfl⟩
  · intro hsgn
    have hnone : (if cfg.is_shadow_grp then sgr_locate st.sgrdb n else none) = none := by
      simp [hs, hsgn]
    obtain ⟨db', hu, hl⟩ := gr_update_of_locate st.grdb n gr
      { gr with gr_passwd := (encryptField cfg p).1 } hg rfl
    rw [processParsed_primary cfg { st with lineNo := st.lineNo + 1 } n p gr db' hg hnone hu]
    exact ⟨hu, rfl, rfl⟩

/-- Witness for C3 at a concrete line whose group has both records. -/
theorem claim_C3_witness :
    (processLine cfgW stW (['g', '1'] ++ ':' :: ['q'] ++ ['\n'])).grdb = stW.grdb ∧
    sgr_update stW.sgrdb { sgW with sg_passwd := (encryptField cfgW ['q']).1 } =
      some ((processLine cfgW stW (['g', '1'] ++ ':' :: ['q'] ++ ['\n'])).sgrdb) ∧
    (processLine cfgW stW (['g', '1'] ++ ':' :: ['q'] ++ ['\n'])).errors = stW.errors :=
  (claim_C3_shadow_precedence cfgW stW ['g', '1'] ['q'] grW
      (by decide) (by decide) (by decide)).1 sgW (by decide)

/-- Claim C1: whenever at least one line was rejected (some diagnostic was
emitted: line too long, missing colon, unknown group, or staging
rejection), the error counter is nonzero at end-of-input, the run exits
with a non-zero status, and neither on-disk database is changed by the
run. -/
theorem claim_C1_atomic_abort_on_any_rejection
    (cfg : Config) (env : Env) (g0 : List group) (s0 : List sgrp)
    (input : List Char)
    (h : (chgpasswd_run cfg env g0 s0 input).diags ≠ []) :
    (chgpasswd_run cfg env g0 s0 input).errors ≠ 0 ∧
    (chgpasswd_run cfg env g0 s0 input).exitCode ≠ 0 ∧
    (chgpasswd_run cfg env g0 s0 input).grdbFinal = g0 ∧
    (chgpasswd_run cfg env g0 s0 input).sgrdbFinal = s0 := by
  by_cases h1 : env.grLockOk = true
  case neg => exact absurd (by simp [chgpasswd_run, h1]) h
  by_cases h2 : env.grOpenOk = true
  case neg => exact absurd (by simp [chgpasswd_run, h1, h2]) h
  by_cases h3 : cfg.is_shadow_grp = true ∧ ¬env.sgrLockOk = true
  case pos => exact absurd (by simp [chgpasswd_run, h1, h2, h3]) h
  by_cases h4 : cfg.is_shadow_grp = true ∧ ¬env.sgrOpenOk = true
  case pos =>
    refine absurd ?_ h
    simp [chgpasswd_run, h1, h2, h3, h4]
    split <;> rfl
  obtain ⟨l, hd, he'⟩ := runLines_diag_err cfg (initState g0 s0) (fgetsAll input)
  by_cases herr : (runLines cfg (initState g0 s0) (fgetsAll input)).errors = 0
  · exfalso
    apply h
    have hl0 : l = [] := by
      rw [he'] at herr
      simp only [initState] at herr
      exact List.eq_nil_of_length_eq_zero (by omega)
    have hstd : (runLines cfg (initState g0 s0) (fgetsAll input)).diags = [] := by
      rw [hd, hl0]
      rfl
    rw [chgpasswd_run_commit cfg env g0 s0 input h1 h2 h3 h4 herr]
    exact hstd
  · rw [chgpasswd_run_abort cfg env g0 s0 input h1 h2 h3 h4 herr]
    exact ⟨herr, Nat.one_ne_zero, rfl, rfl⟩

/-- Witness for C1: a run whose single line has no colon. -/
theorem claim_C1_witness :
    (chgpasswd_run cfgW Env.allOk g0W s0W ['x', '\n']).errors ≠ 0 ∧
    (chgpasswd_run cfgW Env.allOk g0W s0W ['x', '\n']).exitCode ≠ 0 ∧
    (chgpasswd_run cfgW Env.allOk g0W s0W ['x', '\n']).grdbFinal = g0W ∧
    (chgpasswd_run cfgW Env.allOk g0W s0W ['x', '\n']).sgrdbFinal = s0W :=
  claim_C1_atomic_abort_on_any_rejection cfgW Env.allOk g0W s0W ['x', '\n'] (by decide)

/-- Claim C9: when the input stream does not end with a newline, the final
buffer `fgets` returns has no newline, so the final line is reported as
"line too long" (carrying the final line number) and counted as a batch
error even when it is shorter than the buffer, and the batch is aborted
with both on-disk databases unchanged. -/
theorem claim_C9_missing_final_newline_rejected
    (cfg : Config) (g0 : List group) (s0 : List sgrp) (input : List Char)
    (h1 : input ≠ []) (h2 : input.getLast? ≠ some '\n') :
    (chgpasswd_run cfg Env.allOk g0 s0 input).diags.getLast? =
      some (Diag.lineTooLong (fgetsAll input).length) ∧
    (chgpasswd_run cfg Env.allOk g0 s0 input).errors ≠ 0 ∧
    (chgpasswd_run cfg Env.allOk g0 s0 input).exitCode = 1 ∧
    (chgpasswd_run cfg Env.allOk g0 s0 input).grdbFinal = g0 ∧
    (chgpasswd_run cfg Env.allOk g0 s0 input).sgrdbFinal = s0 := by
  have hcsne : fgetsAll input ≠ [] := by
    intro hnil
    apply h1
    have hj := fgetsAll_flatten input
    rw [hnil] at hj
    exact hj.symm
  have hmem : (fgetsAll input).getLast hcsne ∈ fgetsAll input :=
    List.getLast_mem hcsne
  obtain ⟨hLne, hLnl⟩ := fgetsAll_mem input _ hmem
  have hsplit : (fgetsAll input).dropLast ++ [(fgetsAll input).getLast hcsne] =
      fgetsAll input := List.dropLast_append_getLast hcsne
  have hnL : '\n' ∉ (fgetsAll input).getLast hcsne := by
    intro hin
    apply h2
    have hlast : input.getLast? = ((fgetsAll input).getLast hcsne).getLast? := by
      conv_lhs => rw [← fgetsAll_flatten input, ← hsplit]
      rw [List.flatten_append]
      simp only [List.flatten_cons, List.flatten_nil, List.append_nil]
      exact List.getLast?_append_of_ne_nil _ hLne
    rw [hlast]
    exact hLnl hin
  have hloop : runLines cfg (initState g0 s0) (fgetsAll input) =
      processLine cfg (runLines cfg (initState g0 s0) (fgetsAll input).dropLast)
        ((fgetsAll input).getLast hcsne) := by
    conv_lhs => rw [← hsplit]
    rw [runLines_append]
    rfl
  have hstep := processLine_tooLong cfg
    (runLines cfg (initState g0 s0) (fgetsAll input).dropLast)
    ((fgetsAll input).getLast hcsne) hnL
  have herr : (runLines cfg (initState g0 s0) (fgetsAll input)).errors ≠ 0 := by
    rw [hloop, hstep]
    simp
  have hlineNo : (runLines cfg (initState g0 s0) (fgetsAll input).dropLast).lineNo =
      (fgetsAll input).dropLast.length := by
    rw [runLines_lineNo]
    simp [initState]
  have hlen : (fgetsAll input).dropLast.length + 1 = (fgetsAll input).length := by
    rw [List.length_dropLast]
    have : 0 < (fgetsAll input).length := List.length_pos.mpr hcsne
    omega
  have hdiag : (runLines cfg (initState g0 s0) (fgetsAll input)).diags.getLast? =
      some (Diag.lineTooLong (fgetsAll input).length) := by
    rw [hloop, hstep]
    simp only [RunState.diags, List.getLast?_concat]
    rw [hlineNo, hlen]
  have h3 : ¬(cfg.is_shadow_grp = true ∧ ¬Env.allOk.sgrLockOk = true) :=
    fun hx => hx.2 rfl
  have h4 : ¬(cfg.is_shadow_grp = true ∧ ¬Env.allOk.sgrOpenOk = true) :=
    fun hx => hx.2 rfl
  rw [chgpasswd_run_abort cfg Env.allOk g0 s0 input rfl rfl h3 h4 herr]
  exact ⟨hdiag, herr, rfl, rfl, rfl⟩

/-- Witness for C9: a run whose single line lacks the trailing newline. -/
theorem claim_C9_witness :
    (chgpasswd_run cfgW Env.allOk g0W s0W ['g', '1', ':', 'p']).diags.getLast? =
      some (Diag.lineTooLong (fgetsAll ['g', '1', ':', 'p']).length) ∧
    (chgpasswd_run cfgW Env.allOk g0W s0W ['g', '1', ':', 'p']).errors ≠ 0 ∧
    (chgpasswd_run cfgW Env.allOk g0W s0W ['g', '1', ':', 'p']).exitCode = 1 ∧
    (chgpasswd_run cfgW Env.allOk g0W s0W ['g', '1', ':', 'p']).grdbFinal = g0W ∧
    (chgpasswd_run cfgW Env.allOk g0W s0W ['g', '1', ':', 'p']).sgrdbFinal = s0W :=
  claim_C9_missing_final_newline_rejected cfgW g0W s0W ['g', '1', ':', 'p']
    (by decide) (by decide)

/-- Counterexample to C7 as stated: a concrete abort run (one line with no
colon, shadow database present and locked) in which the trace releases
the primary group lock BEFORE the shadow-group lock, so the claimed
shadow-first unlock order is false. -/
theorem claim_C7_counterexample :
    (chgpasswd_run cfgW Env.allOk g0W s0W ['x', ':', ':', '\n', 'y', '\n']).errors ≠ 0 ∧
    (chgpasswd_run cfgW Env.allOk g0W s0W ['x', ':', ':', '\n', 'y', '\n']).exitCode = 1 ∧
    (chgpasswd_run cfgW Env.allOk g0W s0W ['x', ':', ':', '\n', 'y', '\n']).trace =
      [Event.grLock, Event.grOpen, Event.sgrLock, Event.sgrOpen,
       Event.grUnlock, Event.sgrUnlock] ∧
    ¬ ((chgpasswd_run cfgW Env.allOk g0W s0W ['x', ':', ':', '\n', 'y', '\n']).trace.indexOf
          Event.sgrUnlock <
        (chgpasswd_run cfgW Env.allOk g0W s0W ['x', ':', ':', '\n', 'y', '\n']).trace.indexOf
          Event.grUnlock) := by
  decide

/-- Claim C7 (amended): on the abort path (error counter nonzero at
end-of-input) the run terminates with a non-zero status without
committing either database, and `fail_exit` releases the locks with the
primary group handle FIRST and the shadow-group handle second (when the
shadow database is present and locked). -/
theorem claim_C7_amended_abort_unlock_order
    (cfg : Config) (g0 : List group) (s0 : List sgrp) (input : List Char)
    (herr : (runLines cfg (initState g0 s0) (fgetsAll input)).errors ≠ 0) :
    (chgpasswd_run cfg Env.allOk g0 s0 input).trace =
      ([Event.grLock, Event.grOpen] ++
        (if cfg.is_shadow_grp then [Event.sgrLock, Event.sgrOpen] else [])) ++
      ([Event.grUnlock] ++
        (if cfg.is_shadow_grp then [Event.sgrUnlock] else [])) ∧
    (chgpasswd_run cfg Env.allOk g0 s0 input).exitCode ≠ 0 ∧
    (chgpasswd_run cfg Env.allOk g0 s0 input).grdbFinal = g0 ∧
    (chgpasswd_run cfg Env.allOk g0 s0 input).sgrdbFinal = s0 := by
  have h3 : ¬(cfg.is_shadow_grp = true ∧ ¬Env.allOk.sgrLockOk = true) :=
    fun hx => hx.2 rfl
  have h4 : ¬(cfg.is_shadow_grp = true ∧ ¬Env.allOk.sgrOpenOk = true) :=
    fun hx => hx.2 rfl
  rw [chgpasswd_run_abort cfg Env.allOk g0 s0 input rfl rfl h3 h4 herr]
  refine ⟨?_, Nat.one_ne_zero, rfl, rfl⟩
  cases cfg.is_shadow_grp <;> simp [fail_exit_trace]

/-- Witness for the amended C7 on a concrete abort run. -/
theorem claim_C7_witness :
    (chgpasswd_run cfgW Env.allOk g0W s0W ['y', '\n']).trace =
      ([Event.grLock, Event.grOpen] ++
        (if cfgW.is_shadow_grp then [Event.sgrLock, Event.sgrOpen] else [])) ++
      ([Event.grUnlock] ++
        (if cfgW.is_shadow_grp then [Event.sgrUnlock] else [])) ∧
    (chgpasswd_run cfgW Env.allOk g0W s0W ['y', '\n']).exitCode ≠ 0 ∧
    (chgpasswd_run cfgW Env.allOk g0W s0W ['y', '\n']).grdbFinal = g0W ∧
    (chgpasswd_run cfgW Env.allOk g0W s0W ['y', '\n']).sgrdbFinal = s0W :=
  claim_C7_amended_abort_unlock_order cfgW g0W s0W ['y', '\n'] (by decide)

/-- Claim C8: the lifecycle is strictly ordered — lock primary, open
primary, (when the shadow database is present) lock shadow, open shadow,
run the loop, then close (commit) the shadow database before closing
(committing) the primary — and a lock-acquisition failure before the
loop aborts immediately with a non-zero status, zero lines read, the
databases unchanged, and no lock still held by the process. -/
theorem claim_C8_lifecycle_order
    (cfg : Config) (env : Env) (g0 : List group) (s0 : List sgrp)
    (input : List Char) :
    (cfg.is_shadow_grp = true → env = Env.allOk →
        (runLines cfg (initState g0 s0) (fgetsAll input)).errors = 0 →
        (chgpasswd_run cfg env g0 s0 input).trace =
          [Event.grLock, Event.grOpen, Event.sgrLock, Event.sgrOpen,
           Event.sgrClose, Event.sgrUnlock, Event.grClose, Event.grUnlock]) ∧
    (cfg.is_shadow_grp = false → env = Env.allOk →
        (runLines cfg (initState g0 s0) (fgetsAll input)).errors = 0 →
        (chgpasswd_run cfg env g0 s0 input).trace =
          [Event.grLock, Event.grOpen, Event.grClose, Event.grUnlock]) ∧
    (env.grLockOk = false →
        (chgpasswd_run cfg env g0 s0 input).exitCode ≠ 0 ∧
        locksHeldAfter (chgpasswd_run cfg env g0 s0 input).trace = (false, false) ∧
        (chgpasswd_run cfg env g0 s0 input).lines = 0 ∧
        (chgpasswd_run cfg env g0 s0 input).grdbFinal = g0 ∧
        (chgpasswd_run cfg env g0 s0 input).sgrdbFinal = s0) ∧
    (env.grLockOk = true → env.grOpenOk = true → env.sgrLockOk = false →
        cfg.is_shadow_grp = true →
        (chgpasswd_run cfg env g0 s0 input).exitCode ≠ 0 ∧
        locksHeldAfter (chgpasswd_run cfg env g0 s0 input).trace = (false, false) ∧
        (chgpasswd_run cfg env g0 s0 input).lines = 0 ∧
        (chgpasswd_run cfg env g0 s0 input).grdbFinal = g0 ∧
        (chgpasswd_run cfg env g0 s0 input).sgrdbFinal = s0) := by
  refine ⟨?_, ?_, ?_, ?_⟩
  · intro hs henv herr
    subst henv
    have h3 : ¬(cfg.is_shadow_grp = true ∧ ¬Env.allOk.sgrLockOk = true) :=
      fun hx => hx.2 rfl
    have h4 : ¬(cfg.is_shadow_grp = true ∧ ¬Env.allOk.sgrOpenOk = true) :=
      fun hx => hx.2 rfl
    rw [chgpasswd_run_commit cfg Env.allOk g0 s0 input rfl rfl h3 h4 herr]
    simp [hs]
  · intro hs henv herr
    subst henv
    have h3 : ¬(cfg.is_shadow_grp = true ∧ ¬Env.allOk.sgrLockOk = true) :=
      fun hx => hx.2 rfl
    have h4 : ¬(cfg.is_shadow_grp = true ∧ ¬Env.allOk.sgrOpenOk = true) :=
      fun hx => hx.2 rfl
    rw [chgpasswd_run_commit cfg Env.allOk g0 s0 input rfl rfl h3 h4 herr]
    simp [hs]
  · intro hlf
    refine ⟨?_, ?_, ?_, ?_, ?_⟩ <;>
      simp [chgpasswd_run, hlf, fail_exit_trace, locksHeldAfter]
  · intro h1 h2 hsl hs
    refine ⟨?_, ?_, ?_, ?_, ?_⟩ <;>
      simp [chgpasswd_run, h1, h2, hsl, hs, fail_exit_trace, locksHeldAfter]

/-- Witness for C8: a concrete all-success shadow run commits in the
stated order. -/
theorem claim_C8_witness :
    (chgpasswd_run cfgW Env.allOk g0W s0W ['g', '1', ':', 'p', '\n']).trace =
      [Event.grLock, Event.grOpen, Event.sgrLock, Event.sgrOpen,
       Event.sgrClose, Event.sgrUnlock, Event.grClose, Event.grUnlock] :=
  (claim_C8_lifecycle_order cfgW Env.allOk g0W s0W ['g', '1', ':', 'p', '\n']).1
    rfl rfl (by decide)

theorem processLine_accept_shadow (cfg : Config) (st : RunState) (n p : List Char)
    (gr : group) (sg : sgrp) (hs : cfg.is_shadow_grp = true) (hn : ':' ∉ n)
    (hg : gr_locate st.grdb n = some gr) (hsg : sgr_locate st.sgrdb n = some sg) :
    (processLine cfg st (n ++ ':' :: p ++ ['\n'])).grdb = st.grdb ∧
    (processLine cfg st (n ++ ':' :: p ++ ['\n'])).errors = st.errors ∧
    sgr_locate (processLine cfg st (n ++ ':' :: p ++ ['\n'])).sgrdb n =
      some { sg with sg_passwd := (encryptField cfg p).1 } := by
  rw [processLine_parsed cfg st n p hn]
  obtain ⟨db', hu, hl⟩ := sgr_update_of_locate st.sgrdb n sg
    { sg with sg_passwd := (encryptField cfg p).1 } hsg rfl
  rw [processParsed_shadow cfg { st with lineNo := st.lineNo + 1 } n p gr sg db' hs hg hsg hu]
  exact ⟨rfl, rfl, hl⟩

theorem processLine_accept_primary (cfg : Config) (st : RunState) (n p : List Char)
    (gr : group) (hn : ':' ∉ n) (hg : gr_locate st.grdb n = some gr)
    (hsc : (if cfg.is_shadow_grp then sgr_locate st.sgrdb n else none) = none) :
    (processLine cfg st (n ++ ':' :: p ++ ['\n'])).sgrdb = st.sgrdb ∧
    (processLine cfg st (n ++ ':' :: p ++ ['\n'])).errors = st.errors ∧
    gr_locate (processLine cfg st (n ++ ':' :: p ++ ['\n'])).grdb n =
      some { gr with gr_passwd := (encryptField cfg p).1 } := by
  rw [processLine_parsed cfg st n p hn]
  obtain ⟨db', hu, hl⟩ := gr_update_of_locate st.grdb n gr
    { gr with gr_passwd := (encryptField cfg p).1 } hg rfl
  rw [processParsed_primary cfg { st with lineNo := st.lineNo + 1 } n p gr db' hg hsc hu]
  exact ⟨rfl, rfl, hl⟩

theorem chgpasswd_run_commit_fields (cfg : Config) (env : Env) (g0 : List group)
    (s0 : List sgrp) (input : List Char)
    (h1 : env.grLockOk = true) (h2 : env.grOpenOk = true)
    (h3 : ¬(cfg.is_shadow_grp = true ∧ ¬env.sgrLockOk = true))
    (h4 : ¬(cfg.is_shadow_grp = true ∧ ¬env.sgrOpenOk = true))
    (herr : (runLines cfg (initState g0 s0) (fgetsAll input)).errors = 0) :
    (chgpasswd_run cfg env g0 s0 input).exitCode = 0 ∧
    (chgpasswd_run cfg env g0 s0 input).grdbFinal =
      (runLines cfg (initState g0 s0) (fgetsAll input)).grdb ∧
    (chgpasswd_run cfg env g0 s0 input).sgrdbFinal =
      (if cfg.is_shadow_grp then
        (runLines cfg (initState g0 s0) (fgetsAll input)).sgrdb else s0) := by
  rw [chgpasswd_run_commit cfg env g0 s0 input h1 h2 h3 h4 herr]
  exact ⟨rfl, rfl, rfl⟩

theorem gr_update_frame (db : List group) (ng : group) (db' : List group)
    (hu : gr_update db ng = some db') (m : List Char) (hm : ¬m = ng.gr_name) :
    gr_locate db' m = gr_locate db m := by
  induction db generalizing db' with
  | nil => simp [gr_update] at hu
  | cons g1 rest ih =>
      by_cases h1 : g1.gr_name = ng.gr_name
      · rw [gr_update, if_pos h1] at hu
        injection hu with hdb
        subst hdb
        have hng : ¬ng.gr_name = m := fun h => hm (h.symm)
        have hg1 : ¬g1.gr_name = m := fun h => hm (by rw [← h, h1])
        rw [gr_locate, if_neg hng, gr_locate, if_neg hg1]
      · rw [gr_update, if_neg h1] at hu
        cases hx : gr_update rest ng with
        | none => rw [hx] at hu; simp at hu
        | some db'' =>
            rw [hx] at hu
            simp only [Option.map_some'] at hu
            injection hu with hdb
            subst hdb
            by_cases h2 : g1.gr_name = m
            · rw [gr_locate, if_pos h2, gr_locate, if_pos h2]
            · rw [gr_locate, if_neg h2, gr_locate, if_neg h2]
              exact ih db'' hx

theorem sgr_update_frame (db : List sgrp) (ng : sgrp) (db' : List sgrp)
    (hu : sgr_update db ng = some db') (m : List Char) (hm : ¬m = ng.sg_name) :
    sgr_locate db' m = sgr_locate db m := by
  induction db generalizing db' with
  | nil => simp [sgr_update] at hu
  | cons g1 rest ih =>
      by_cases h1 : g1.sg_name = ng.sg_name
      · rw [sgr_update, if_pos h1] at hu
        injection hu with hdb
        subst hdb
        have hng : ¬ng.sg_name = m := fun h => hm (h.symm)
        have hg1 : ¬g1.sg_name = m := fun h => hm (by rw [← h, h1])
        rw [sgr_locate, if_neg hng, sgr_locate, if_neg hg1]
      · rw [sgr_update, if_neg h1] at hu
        cases hx : sgr_update rest ng with
        | none => rw [hx] at hu; simp at hu
        | some db'' =>
            rw [hx] at hu
            simp only [Option.map_some'] at hu
            injection hu with hdb
            subst hdb
            by_cases h2 : g1.sg_name = m
            · rw [sgr_locate, if_pos h2, sgr_locate, if_pos h2]
            · rw [sgr_locate, if_neg h2, sgr_locate, if_neg h2]
              exact ih db'' hx

theorem lastCred_cons_eq (cfg : Config) (c : List Char)
    (q : List Char × List Char) (ls : List (List Char × List Char))
    (n : List Char) (h : q.1 = n) :
    lastCred cfg c (q :: ls) n = lastCred cfg (encryptField cfg q.2).1 ls n := by
  simp [lastCred, h]

theorem lastCred_cons_ne (cfg : Config) (c : List Char)
    (q : List Char × List Char) (ls : List (List Char × List Char))
    (n : List Char) (h : ¬q.1 = n) :
    lastCred cfg c (q :: ls) n = lastCred cfg c ls n := by
  simp [lastCred, h]

theorem lastCred_no_occ (cfg : Config) (ls : List (List Char × List Char))
    (n : List Char) (h : ∀ q ∈ ls, ¬q.1 = n) :
    ∀ c, lastCred cfg c ls n = c := by
  induction ls with
  | nil => intro c; rfl
  | cons q rest ih =>
      intro c
      rw [lastCred_cons_ne cfg c q rest n (h q (List.mem_cons_self q rest))]
      exact ih (fun p hp => h p (List.mem_cons_of_mem _ hp)) c

theorem lastCred_split (cfg : Config) (ls₁ ls₂ : List (List Char × List Char))
    (n pL : List Char) (h : ∀ q ∈ ls₂, ¬q.1 = n) :
    ∀ c, lastCred cfg c (ls₁ ++ (n, pL) :: ls₂) n = (encryptField cfg pL).1 := by
  induction ls₁ with
  | nil =>
      intro c
      rw [List.nil_append, lastCred_cons_eq cfg c (n, pL) ls₂ n rfl]
      exact lastCred_no_occ cfg ls₂ n h _
  | cons q ls₁ ih =>
      intro c
      rw [List.cons_append]
      by_cases hq : q.1 = n
      · rw [lastCred_cons_eq cfg c q _ n hq]
        exact ih _
      · rw [lastCred_cons_ne cfg c q _ n hq]
        exact ih _

theorem fgetsAll_mkInput (ls : List (List Char × List Char))
    (hwf : ∀ q ∈ ls, '\n' ∉ q.1 ∧ '\n' ∉ q.2 ∧
        q.1.length + q.2.length + 1 < BUFSIZ - 1) :
    fgetsAll (mkInput ls) = ls.map mkLine := by
  induction ls with
  | nil => rfl
  | cons q rest ih =>
      obtain ⟨h1, h2, h3⟩ := hwf q (List.mem_cons_self q rest)
      have hnl : '\n' ∉ q.1 ++ ':' :: q.2 := by
        intro hmem
        rcases List.mem_append.mp hmem with h | h
        · exact h1 h
        · rcases List.mem_cons.mp h with h | h
          · exact absurd h (by decide)
          · exact h2 h
      have hln : (q.1 ++ ':' :: q.2).length < BUFSIZ - 1 := by
        simp only [List.length_append, List.length_cons]
        omega
      have e : mkInput (q :: rest) =
          (q.1 ++ ':' :: q.2) ++ '\n' :: mkInput rest := by
        simp [mkInput, mkLine]
      rw [e, fgetsAll_cons_line _ _ hnl hln,
          ih (fun p hp => hwf p (List.mem_cons_of_mem _ hp)), List.map_cons]
      simp [mkLine]



theorem processLine_accept_step (cfg : Config) (st : RunState)
    (q : List Char × List Char) (g : group)
    (hn : ':' ∉ q.1) (hg : gr_locate st.grdb q.1 = some g) :
    (processLine cfg st (mkLine q)).errors = st.errors ∧
    (∀ sg, (if cfg.is_shadow_grp then sgr_locate st.sgrdb q.1 else none) = some sg →
        (processLine cfg st (mkLine q)).grdb = st.grdb ∧
        sgr_locate (processLine cfg st (mkLine q)).sgrdb q.1 =
          some { sg with sg_passwd := (encryptField cfg q.2).1 } ∧
        (∀ m, ¬m = q.1 →
          sgr_locate (processLine cfg st (mkLine q)).sgrdb m =
            sgr_locate st.sgrdb m)) ∧
    ((if cfg.is_shadow_grp then sgr_locate st.sgrdb q.1 else none) = none →
        (processLine cfg st (mkLine q)).sgrdb = st.sgrdb ∧
        gr_locate (processLine cfg st (mkLine q)).grdb q.1 =
          some { g with gr_passwd := (encryptField cfg q.2).1 } ∧
        (∀ m, ¬m = q.1 →
          gr_locate (processLine cfg st (mkLine q)).grdb m =
            gr_locate st.grdb m)) := by
  simp only [mkLine]
  rw [processLine_parsed cfg st q.1 q.2 hn]
  cases hif : (if cfg.is_shadow_grp then sgr_locate st.sgrdb q.1 else none) with
  | some sgq =>
      have hs : cfg.is_shadow_grp = true := by
        cases hb : cfg.is_shadow_grp
        · rw [hb] at hif; simp at hif
        · rfl
      have hsgq : sgr_locate st.sgrdb q.1 = some sgq := by
        rw [hs] at hif
        simpa using hif
      obtain ⟨db', hu, hl⟩ := sgr_update_of_locate st.sgrdb q.1 sgq
        { sgq with sg_passwd := (encryptField cfg q.2).1 } hsgq rfl
      rw [processParsed_shadow cfg { st with lineNo := st.lineNo + 1 } q.1 q.2
            g sgq db' hs hg hsgq hu]
      refine ⟨rfl, ?_, ?_⟩
      · intro sg hsome
        injection hsome with hx
        subst hx
        refine ⟨rfl, hl, ?_⟩
        intro m hm
        have hname : sgq.sg_name = q.1 := sgr_locate_name st.sgrdb q.1 sgq hsgq
        exact sgr_update_frame st.sgrdb _ db' hu m (by rw [hname]; exact hm)
      · intro hnone
        cases hnone
  | none =>
      obtain ⟨db', hu, hl⟩ := gr_update_of_locate st.grdb q.1 g
        { g with gr_passwd := (encryptField cfg q.2).1 } hg rfl
      rw [processParsed_primary cfg { st with lineNo := st.lineNo + 1 } q.1 q.2
            g db' hg hif hu]
      refine ⟨rfl, ?_, ?_⟩
      · intro sg hsome
        cases hsome
      · intro _
        refine ⟨rfl, hl, ?_⟩
        intro m hm
        have hname : g.gr_name = q.1 := gr_locate_name st.grdb q.1 g hg
        exact gr_update_frame st.grdb _ db' hu m (by rw [hname]; exact hm)

theorem runLines_last_write (cfg : Config) (n : List Char) :
    ∀ (ls : List (List Char × List Char)) (st : RunState),
      (∀ q ∈ ls, ':' ∉ q.1) →
      (∀ q ∈ ls, ∃ g, gr_locate st.grdb q.1 = some g) →
      (runLines cfg st (ls.map mkLine)).errors = st.errors ∧
      (∀ sg, cfg.is_shadow_grp = true → sgr_locate st.sgrdb n = some sg →
          sgr_locate (runLines cfg st (ls.map mkLine)).sgrdb n =
            some { sg with sg_passwd := lastCred cfg sg.sg_passwd ls n }) ∧
      ((if cfg.is_shadow_grp then sgr_locate st.sgrdb n else none) = none →
          ∀ g, gr_locate st.grdb n = some g →
          gr_locate (runLines cfg st (ls.map mkLine)).grdb n =
            some { g with gr_passwd := lastCred cfg g.gr_passwd ls n }) := by
  intro ls
  induction ls with
  | nil =>
      intro st _ _
      refine ⟨rfl, ?_, ?_⟩
      · intro sg _ hsg
        exact hsg
      · intro _ g hgl
        exact hgl
  | cons q rest ih =>
      intro st hwf hacc
      obtain ⟨g, hg⟩ := hacc q (List.mem_cons_self q rest)
      have hnq : ':' ∉ q.1 := hwf q (List.mem_cons_self q rest)
      obtain ⟨herrS, hshS, hprS⟩ := processLine_accept_step cfg st q g hnq hg
      rw [List.map_cons, runLines_cons]
      cases hif : (if cfg.is_shadow_grp then sgr_locate st.sgrdb q.1 else none) with
      | some sgq =>
          obtain ⟨hgrEq, hsgLoc, hsgFrame⟩ := hshS sgq hif
          have hs : cfg.is_shadow_grp = true := by
            cases hb : cfg.is_shadow_grp
            · rw [hb] at hif; simp at hif
            · rfl
          have hsgq : sgr_locate st.sgrdb q.1 = some sgq := by
            rw [hs] at hif
            simpa using hif
          have hacc' : ∀ p ∈ rest,
              ∃ g', gr_locate (processLine cfg st (mkLine q)).grdb p.1 = some g' := by
            intro p hp
            obtain ⟨g', hg'⟩ := hacc p (List.mem_cons_of_mem _ hp)
            exact ⟨g', by rw [hgrEq]; exact hg'⟩
          obtain ⟨ihErr, ihSh, ihPr⟩ := ih (processLine cfg st (mkLine q))
            (fun p hp => hwf p (List.mem_cons_of_mem _ hp)) hacc'
          refine ⟨?_, ?_, ?_⟩
          · rw [ihErr, herrS]
          · intro sg hsx hsg
            by_cases hqn : q.1 = n
            · subst hqn
              rw [hsg] at hsgq
              injection hsgq with hx
              subst hx
              have hstep := ihSh { sg with sg_passwd := (encryptField cfg q.2).1 }
                hsx hsgLoc
              rw [lastCred_cons_eq cfg sg.sg_passwd q rest q.1 rfl]
              exact hstep
            · have hkeep := hsgFrame n (fun h => hqn h.symm)
              have hstep := ihSh sg hsx (by rw [hkeep]; exact hsg)
              rw [lastCred_cons_ne cfg sg.sg_passwd q rest n hqn]
              exact hstep
          · intro hifn g' hgl
            rw [hs] at hifn
            simp only [if_true] at hifn
            have hqn : ¬q.1 = n := by
              intro h
              rw [h, hifn] at hsgq
              cases hsgq
            have hkeep := hsgFrame n (fun h => hqn h.symm)
            have hifn' : (if cfg.is_shadow_grp then
                sgr_locate (processLine cfg st (mkLine q)).sgrdb n else none) = none := by
              rw [hs]
              simp only [if_true]
              rw [hkeep]
              exact hifn
            have hgl' : gr_locate (processLine cfg st (mkLine q)).grdb n = some g' := by
              rw [hgrEq]
              exact hgl
            have hstep := ihPr hifn' g' hgl'
            rw [lastCred_cons_ne cfg g'.gr_passwd q rest n hqn]
            exact hstep
      | none =>
          obtain ⟨hsgEq, hgrLoc, hgrFrame⟩ := hprS hif
          have hacc' : ∀ p ∈ rest,
              ∃ g', gr_locate (processLine cfg st (mkLine q)).grdb p.1 = some g' := by
            intro p hp
            obtain ⟨g', hg'⟩ := hacc p (List.mem_cons_of_mem _ hp)
            by_cases hpq : p.1 = q.1
            · rw [hpq]
              exact ⟨{ g with gr_passwd := (encryptField cfg q.2).1 }, hgrLoc⟩
            · exact ⟨g', by rw [hgrFrame p.1 hpq]; exact hg'⟩
          obtain ⟨ihErr, ihSh, ihPr⟩ := ih (processLine cfg st (mkLine q))
            (fun p hp => hwf p (List.mem_cons_of_mem _ hp)) hacc'
          refine ⟨?_, ?_, ?_⟩
          · rw [ihErr, herrS]
          · intro sg hsx hsg
            have hqn : ¬q.1 = n := by
              intro h
              rw [hsx] at hif
              simp only [if_true] at hif
              rw [h, hsg] at hif
              cases hif
            have hstep := ihSh sg hsx (by rw [hsgEq]; exact hsg)
            rw [lastCred_cons_ne cfg sg.sg_passwd q rest n hqn]
            exact hstep
          · intro hifn g' hgl
            have hifn' : (if cfg.is_shadow_grp then
                sgr_locate (processLine cfg st (mkLine q)).sgrdb n else none) = none := by
              rw [hsgEq]
              exact hifn
            by_cases hqn : q.1 = n
            · subst hqn
              rw [hg] at hgl
              injection hgl with hx
              subst hx
              have hstep := ihPr hifn'
                { g with gr_passwd := (encryptField cfg q.2).1 } hgrLoc
              rw [lastCred_cons_eq cfg g.gr_passwd q rest q.1 rfl]
              exact hstep
            · have hgl' : gr_locate (processLine cfg st (mkLine q)).grdb n = some g' := by
                rw [hgrFrame n (fun h => hqn h.symm)]
                exact hgl
              have hstep := ihPr hifn' g' hgl'
              rw [lastCred_cons_ne cfg g'.gr_passwd q rest n hqn]
              exact hstep

/-- Claim C2: for every input stream in which the same group name appears
on multiple lines and every line is accepted (each line is well formed
and names an existing group), the committed credential for that group is
the one derived from the last occurrence in input order, because each
staging call (`sgr_update` or `gr_update`) replaces the prior in-memory
entry for that key.  The stream is an arbitrary list of (name, password)
lines, split as `ls₁ ++ (n, pL) :: ls₂` around the last occurrence of the
name `n` (so `ls₂` has no line for `n`, while `ls₁` contains further
occurrences of `n` and arbitrary interleaved lines for other groups). -/
theorem claim_C2_last_write_wins
    (cfg : Config) (g0 : List group) (s0 : List sgrp)
    (ls ls₁ ls₂ : List (List Char × List Char))
    (n pL : List Char) (gr : group)
    (hsplit : ls = ls₁ ++ (n, pL) :: ls₂)
    (hlastocc : ∀ q ∈ ls₂, ¬q.1 = n)
    (hmulti : ∃ q ∈ ls₁, q.1 = n)
    (hwf : ∀ q ∈ ls, ':' ∉ q.1 ∧ '\n' ∉ q.1 ∧ '\n' ∉ q.2 ∧
        q.1.length + q.2.length + 1 < BUFSIZ - 1)
    (hacc : ∀ q ∈ ls, ∃ g, gr_locate g0 q.1 = some g)
    (hg : gr_locate g0 n = some gr) :
    (chgpasswd_run cfg Env.allOk g0 s0 (mkInput ls)).exitCode = 0 ∧
    (∀ sg, cfg.is_shadow_grp = true → sgr_locate s0 n = some sg →
        sgr_locate (chgpasswd_run cfg Env.allOk g0 s0 (mkInput ls)).sgrdbFinal n =
          some { sg with sg_passwd := (encryptField cfg pL).1 }) ∧
    ((if cfg.is_shadow_grp then sgr_locate s0 n else none) = none →
        gr_locate (chgpasswd_run cfg Env.allOk g0 s0 (mkInput ls)).grdbFinal n =
          some { gr with gr_passwd := (encryptField cfg pL).1 }) := by
  have h3 : ¬(cfg.is_shadow_grp = true ∧ ¬Env.allOk.sgrLockOk = true) :=
    fun hx => hx.2 rfl
  have h4 : ¬(cfg.is_shadow_grp = true ∧ ¬Env.allOk.sgrOpenOk = true) :=
    fun hx => hx.2 rfl
  have hchunks : fgetsAll (mkInput ls) = ls.map mkLine :=
    fgetsAll_mkInput ls
      (fun q hq => ⟨(hwf q hq).2.1, (hwf q hq).2.2.1, (hwf q hq).2.2.2⟩)
  obtain ⟨hErr, hSh, hPr⟩ := runLines_last_write cfg n ls (initState g0 s0)
    (fun q hq => (hwf q hq).1) hacc
  have herr : (runLines cfg (initState g0 s0) (fgetsAll (mkInput ls))).errors = 0 := by
    rw [hchunks, hErr]
    rfl
  obtain ⟨hexit, hgrf, hsgf⟩ :=
    chgpasswd_run_commit_fields cfg Env.allOk g0 s0 (mkInput ls) rfl rfl h3 h4 herr
  have hcred : ∀ c, lastCred cfg c ls n = (encryptField cfg pL).1 := by
    intro c
    rw [hsplit]
    exact lastCred_split cfg ls₁ ls₂ n pL hlastocc c
  refine ⟨hexit, ?_, ?_⟩
  · intro sg hs hsg
    rw [hsgf, hs]
    simp only [if_true]
    rw [hchunks, hSh sg hs hsg, hcred sg.sg_passwd]
  · intro hifn
    rw [hgrf, hchunks, hPr hifn gr hg, hcred gr.gr_passwd]

/-- Witness for C2: the example from the spec, two lines for `g1` with
`g1` present in both databases, ends with the shadow credential derived
from `pass2`. -/
theorem claim_C2_witness :
    (chgpasswd_run cfgW Env.allOk g0W s0W
        (mkInput [(['g', '1'], ['p', 'a', 's', 's', '1']),
                  (['g', '1'], ['p', 'a', 's', 's', '2'])])).exitCode = 0 ∧
    sgr_locate (chgpasswd_run cfgW Env.allOk g0W s0W
        (mkInput [(['g', '1'], ['p', 'a', 's', 's', '1']),
                  (['g', '1'], ['p', 'a', 's', 's', '2'])])).sgrdbFinal ['g', '1'] =
      some { sgW with sg_passwd := (encryptField cfgW ['p', 'a', 's', 's', '2']).1 } :=
  ⟨(claim_C2_last_write_wins cfgW g0W s0W
      [(['g', '1'], ['p', 'a', 's', 's', '1']), (['g', '1'], ['p', 'a', 's', 's', '2'])]
      [(['g', '1'], ['p', 'a', 's', 's', '1'])] [] ['g', '1'] ['p', 'a', 's', 's', '2'] grW
      rfl (by decide) (by decide) (by decide)
      (by intro q hq; fin_cases hq <;> exact ⟨grW, by decide⟩) (by decide)).1,
   (claim_C2_last_write_wins cfgW g0W s0W
      [(['g', '1'], ['p', 'a', 's', 's', '1']), (['g', '1'], ['p', 'a', 's', 's', '2'])]
      [(['g', '1'], ['p', 'a', 's', 's', '1'])] [] ['g', '1'] ['p', 'a', 's', 's', '2'] grW
      rfl (by decide) (by decide) (by decide)
      (by intro q hq; fin_cases hq <;> exact ⟨grW, by decide⟩) (by decide)).2.1
     sgW rfl (by decide)⟩

end Chgpasswd
